import Mathlib

/-!
Verification development for the humble-cms Resource/Schema engine.

The repository ships `src/pocket.js` (the `Pocket` entry-point class) together
with its test-suite; the `Resource`, `Schema` and storage-adapter modules that
the tests exercise are consumed through `require` and are not part of the
checked-in sources.  Those parts are therefore modelled from the specification
(marked `Modelled from the spec:`), while `Pocket.resource` is embedded
directly from `src/src/pocket.js`.

Records are dynamic JS objects; they are embedded as association lists from
field names to a closed `Value` type.  All operations are pure state-passing
functions over an explicit store state `St`.
-/

namespace HumbleCMS

/-- Modelled from the spec: a dynamic JS field value (string / number / boolean). -/
inductive Value : Type where
  | str (s : String)
  | num (n : Int)
  | bool (b : Bool)
deriving DecidableEq, Repr

/-- Field assignments of a record or query: an association list from names to values. -/
abbrev Fields := List (String × Value)

/-- Modelled from the spec: an attachment descriptor
`{id, name, file}` kept in a record's `_attachments` sequence. -/
structure Attachment : Type where
  id : String
  name : String
  file : String
deriving DecidableEq, Repr

/-- Modelled from the spec: a record is a mapping from field names to values plus a
generated `_id` (here `rid`) and an `_attachments` sequence (here `attachments`). -/
structure Record : Type where
  fields : Fields
  rid : String
  attachments : List Attachment
deriving DecidableEq, Repr

/-- Modelled from the spec: declared field types of the closed Field-kind set. -/
inductive FieldType : Type where
  | string
  | number
  | boolean
deriving DecidableEq, Repr

/-- Modelled from the spec: a declared Schema field — name, type, constraints
(required, unique index) and the optional computed-field function. -/
structure Field : Type where
  name : String
  ftype : FieldType
  required : Bool
  unique : Bool
  computed : Bool
  compute : Option (Fields → Value)

/-- Modelled from the spec: a Schema — the field declarations, the
`additionalProperties` policy, and the hook registry contents for the
`find` event (ordered `before`/`after` callback lists; a `before` callback
rewrites the query, an `after` callback rewrites the returned records). -/
structure Schema : Type where
  additionalProperties : Bool
  fields : List Field
  beforeFind : List (Fields → Fields)
  afterFind : List (List Record → List Record)

/-- Modelled from the spec: a structured field error carried by `ValidationError`. -/
structure FieldError : Type where
  field : String
  reason : String
deriving DecidableEq, Repr

/-- Modelled from the spec: the engine's error taxonomy. -/
inductive Err : Type where
  | validationError (errs : List FieldError)
  | uniqueConstraintError (field : String)
  | notFoundError
deriving DecidableEq, Repr

/-- Modelled from the spec: the combined StorageAdapter + BlobStore state of one
Resource — the live records, the blob contents keyed by opaque id, and the
counters from which fresh record / blob identifiers are generated. -/
structure St : Type where
  records : List Record
  blobs : List (String × List Nat)
  nextId : Nat
  nextBlobId : Nat
deriving DecidableEq, Repr

/-- First-match association-list lookup (JS property read). -/
def alookup {β : Type} (k : String) : List (String × β) → Option β
  | [] => none
  | kv :: rest => if kv.1 = k then some kv.2 else alookup k rest

/-- JS property assignment on an association list: overwrite the binding of the
key when present, append the binding otherwise. -/
def setField : Fields → String → Value → Fields
  | [], k, v => [(k, v)]
  | kv :: rest, k, v =>
    if kv.1 = k then (k, v) :: rest else kv :: setField rest k v

/-- Modelled from the spec: shallow merge of a patch over existing fields
(each patch binding assigned in order, later bindings winning). -/
def mergeFields (fs : Fields) (patch : Fields) : Fields :=
  patch.foldl (fun acc kv => setField acc kv.1 kv.2) fs

/-- The declared Field of a given name, if any (first declaration wins). -/
def findField (s : Schema) (n : String) : Option Field :=
  s.fields.find? (fun f => f.name == n)

/-- Whether a name is declared as a computed field of the schema. -/
def isComputedName (s : Schema) (n : String) : Bool :=
  match findField s n with
  | some f => f.computed
  | none => false

/-- Modelled from the spec: whether a value inhabits a declared type. -/
def typeMatches : FieldType → Value → Bool
  | .string, .str _ => true
  | .number, .num _ => true
  | .boolean, .bool _ => true
  | _, _ => false

/-- Modelled from the spec: Schema validation — unknown fields rejected when
`additionalProperties` is false, required (non-computed) fields must be
present, and every supplied declared field must match its declared type.
Uniqueness is deliberately not checked here (it is a write-time,
adapter-level concern). -/
def validateRecord (s : Schema) (fs : Fields) : List FieldError :=
  let unknownErrs :=
    if s.additionalProperties then []
    else (fs.filter (fun kv => (findField s kv.1).isNone)).map
      (fun kv => FieldError.mk kv.1 "unknown field")
  let requiredErrs :=
    (s.fields.filter
      (fun f => f.required && !f.computed && (alookup f.name fs).isNone)).map
      (fun f => FieldError.mk f.name "required")
  let typeErrs :=
    fs.filterMap (fun kv =>
      match findField s kv.1 with
      | some f => if typeMatches f.ftype kv.2 then none
                  else some (FieldError.mk kv.1 "bad type")
      | none => none)
  unknownErrs ++ requiredErrs ++ typeErrs

/-- Modelled from the spec: computed fields are derived, never stored — drop
every computed-field binding before a write reaches the adapter. -/
def stripComputed (s : Schema) (fs : Fields) : Fields :=
  fs.filter (fun kv => !isComputedName s kv.1)

/-- Modelled from the spec: the adapter-level unique-index check at write time —
the first unique-indexed field whose supplied value collides with another
live record (records with id `exceptId` being the written record itself). -/
def uniqueViolation (s : Schema) (st : St) (fs : Fields) (exceptId : Option String) :
    Option String :=
  s.fields.findSome? (fun f =>
    if f.unique then
      match alookup f.name fs with
      | some v =>
        if st.records.any (fun r =>
            (match exceptId with
             | some e => !(r.rid == e)
             | none => true)
            && alookup f.name r.fields == some v)
        then some f.name else none
      | none => none
    else none)

/-- One step of computed-field resolution: attach the computed value of one
declared field (computed from the record's stored fields `base`) onto the
accumulated field map. -/
def computeStep (base : Fields) (acc : Fields) (f : Field) : Fields :=
  match f.compute with
  | some g => if f.computed then setField acc f.name (g base) else acc
  | none => acc

/-- Modelled from the spec: computed-field resolution — each computed Field's
function is invoked with the record and its result is attached under the
field's name; the stored representation is untouched. -/
def resolveComputed (s : Schema) (r : Record) : Record :=
  Record.mk (s.fields.foldl (computeStep r.fields) r.fields) r.rid r.attachments

/-- The opaque record identifier assigned by the adapter at the current state. -/
def genId (st : St) : String :=
  "id-" ++ toString st.nextId

/-- Modelled from the spec: `create(input)` — Schema validation (failure is a
`ValidationError` and writes nothing), unique-index enforcement (failure is a
`UniqueConstraintError` and writes nothing), then the stripped record is
persisted under a fresh `_id` with an empty `_attachments` sequence, and the
created record is returned with computed fields resolved. -/
def resourceCreate (s : Schema) (input : Fields) (st : St) : Except Err Record × St :=
  let errs := validateRecord s input
  if errs.isEmpty then
    let fs := stripComputed s input
    match uniqueViolation s st fs none with
    | some fname => (Except.error (Err.uniqueConstraintError fname), st)
    | none =>
      let newRec : Record := Record.mk fs (genId st) []
      (Except.ok (resolveComputed s newRec),
       St.mk (st.records ++ [newRec]) st.blobs (st.nextId + 1) st.nextBlobId)
  else (Except.error (Err.validationError errs), st)

/-- The adapter's direct lookup of a stored record by `_id`. -/
def getRecord (st : St) (id : String) : Option Record :=
  st.records.find? (fun r => r.rid == id)

/-- Modelled from the spec: `get(id)` — direct lookup by `_id`, `none` when
absent, computed fields resolved on the returned record. -/
def resourceGet (s : Schema) (id : String) (st : St) : Option Record :=
  (getRecord st id).map (resolveComputed s)

/-- Pagination metadata, attached to a query result when pagination parameters
are supplied. -/
structure PageMeta : Type where
  page : Nat
  pageSize : Nat
  totalPages : Nat
deriving DecidableEq, Repr

/-- Options accepted by `find` / `findOne`. -/
structure FindOptions : Type where
  pageSize : Option Nat
  page : Nat
  skipComputation : Bool

/-- The result of a `find` call: the record sequence, plus `PageMeta` when
pagination parameters were supplied. -/
structure FindResult : Type where
  records : List Record
  meta : Option PageMeta
deriving DecidableEq, Repr

/-- Run a phase's hook callbacks strictly in registration order, each rewriting
the shared payload before the next starts. -/
def applyHooks {α : Type} (hs : List (α → α)) (x : α) : α :=
  hs.foldl (fun a f => f a) x

/-- Structural partial-match: a record hits a query when every supplied
query field equals the record's value under that name (`_id` reads the
record identifier). -/
def fieldVal (r : Record) (k : String) : Option Value :=
  if k == "_id" then some (Value.str r.rid) else alookup k r.fields

/-- Whether a record hits every field of a query. -/
def matchQuery (q : Fields) (r : Record) : Bool :=
  q.all (fun kv => fieldVal r kv.1 == some kv.2)

/-- Number of pages for a matching count and a page size: `ceil(n / p)`. -/
def totalPagesFor (n p : Nat) : Nat :=
  (n + p - 1) / p

/-- The page window of a matching sequence under the supplied options: the
whole sequence without pagination, else the 1-based page of `pageSize` rows. -/
def pageOf (hits : List Record) (opts : FindOptions) : List Record :=
  match opts.pageSize with
  | none => hits
  | some p => (hits.drop ((opts.page - 1) * p)).take p

/-- The `PageMeta` attached for a matching count under the supplied options. -/
def metaOf (n : Nat) (opts : FindOptions) : Option PageMeta :=
  match opts.pageSize with
  | none => none
  | some p => some (PageMeta.mk opts.page p (totalPagesFor n p))

/-- Modelled from the spec: `find(query, options)` — `find`-before hooks may
rewrite the query, the adapter filters by structural partial match,
pagination windows the hits and attaches `PageMeta` with
`totalPages = ceil(count / pageSize)`, `find`-after hooks may rewrite the
records, and computed fields are resolved unless `skipComputation` is set. -/
def resourceFind (s : Schema) (q : Fields) (opts : FindOptions) (st : St) : FindResult :=
  let q2 := applyHooks s.beforeFind q
  let hits := st.records.filter (matchQuery q2)
  let recs := applyHooks s.afterFind (pageOf hits opts)
  FindResult.mk
    (if opts.skipComputation then recs else recs.map (resolveComputed s))
    (metaOf hits.length opts)

/-- Plain unpaginated `find` options. -/
def noOpts : FindOptions := FindOptions.mk none 1 false

/-- Modelled from the spec: `findOne(query, options)` — `find` restricted to the
first match. -/
def resourceFindOne (s : Schema) (q : Fields) (opts : FindOptions) (st : St) :
    Option Record :=
  (resourceFind s q opts st).records.head?

/-- Replace the stored record carrying the given id. -/
def putRecord (st : St) (id : String) (r : Record) : St :=
  St.mk (st.records.map (fun r0 => if r0.rid = id then r else r0))
    st.blobs st.nextId st.nextBlobId

/-- A patch as persisted by `mergeOne`: computed fields are never stored and the
reserved `_id` / `_attachments` properties are not mergeable fields. -/
def sanitizePatch (s : Schema) (patch : Fields) : Fields :=
  stripComputed s (patch.filter (fun kv => !(kv.1 == "_id") && !(kv.1 == "_attachments")))

/-- Modelled from the spec: `mergeOne(id, patch)` — fetch by id (`NotFoundError`
when absent), shallow-merge the patch over the existing fields, re-validate
the merged record, enforce unique indexes against the other live records,
persist the merged record under the same `_id`, and return it with computed
fields resolved.  A failure at any step leaves the store untouched. -/
def resourceMergeOne (s : Schema) (id : String) (patch : Fields) (st : St) :
    Except Err Record × St :=
  match getRecord st id with
  | none => (Except.error Err.notFoundError, st)
  | some r0 =>
    let merged := mergeFields r0.fields (sanitizePatch s patch)
    let errs := validateRecord s merged
    if errs.isEmpty then
      match uniqueViolation s st merged (some id) with
      | some fname => (Except.error (Err.uniqueConstraintError fname), st)
      | none =>
        let newRec : Record := Record.mk merged r0.rid r0.attachments
        (Except.ok (resolveComputed s newRec), putRecord st id newRec)
    else (Except.error (Err.validationError errs), st)

/-- The opaque blob identifier assigned by the BlobStore at the current state. -/
def genBlobId (st : St) : String :=
  "blob-" ++ toString st.nextBlobId

/-- Modelled from the spec: `attach(id, name, source)` — the source content is a
readable byte sequence or unreadable (`none`); an unreadable source fails
with `NotFoundError` before any record mutation, otherwise the content is
stored in the BlobStore under a fresh id, an Attachment descriptor is
appended to the record's `_attachments`, and the updated record is
persisted and returned. -/
def resourceAttach (s : Schema) (id nm : String) (src : Option (List Nat)) (st : St) :
    Except Err Record × St :=
  match src with
  | none => (Except.error Err.notFoundError, st)
  | some content =>
    match getRecord st id with
    | none => (Except.error Err.notFoundError, st)
    | some r0 =>
      let bid := genBlobId st
      let newRec : Record :=
        Record.mk r0.fields r0.rid (r0.attachments ++ [Attachment.mk bid nm bid])
      (Except.ok (resolveComputed s newRec),
       St.mk ((putRecord st id newRec).records) ((bid, content) :: st.blobs)
         st.nextId (st.nextBlobId + 1))

/-- Modelled from the spec: `readAttachment(attachmentId)` — the byte content
from the BlobStore, `NotFoundError` when the id is unknown. -/
def resourceReadAttachment (st : St) (attId : String) : Except Err (List Nat) :=
  match alookup attId st.blobs with
  | some c => Except.ok c
  | none => Except.error Err.notFoundError

/-- Modelled from the spec: `deleteAttachment(id, attachmentId)` — remove the
Attachment descriptor from the record's `_attachments`, delete the blob
content, persist and return the updated record. -/
def resourceDeleteAttachment (s : Schema) (id attId : String) (st : St) :
    Except Err Record × St :=
  match getRecord st id with
  | none => (Except.error Err.notFoundError, st)
  | some r0 =>
    let newRec : Record :=
      Record.mk r0.fields r0.rid (r0.attachments.filter (fun a => !(a.id == attId)))
    (Except.ok (resolveComputed s newRec),
     St.mk ((putRecord st id newRec).records)
       (st.blobs.filter (fun b => !(b.1 == attId))) st.nextId st.nextBlobId)

/-- Modelled from the spec: `removeOne(id)` — delete the record and, as an
explicit step, the blob content of all of its attachments (no orphaned
blobs). -/
def resourceRemoveOne (st : St) (id : String) : St :=
  match getRecord st id with
  | none => st
  | some r0 =>
    St.mk (st.records.filter (fun r => !(r.rid == id)))
      (st.blobs.filter (fun b => !(r0.attachments.any (fun a => a.id == b.1))))
      st.nextId st.nextBlobId

/-- Modelled from the spec: `drop()` — remove every record of the collection and
the blob content of their attachments. -/
def resourceDrop (st : St) : St :=
  St.mk []
    (st.blobs.filter (fun b =>
      !(st.records.any (fun r => r.attachments.any (fun a => a.id == b.1)))))
    st.nextId st.nextBlobId

/-- Modelled from the spec: a declared field of a plain schema-definition
object, as passed to the Schema constructor. -/
structure FieldDef : Type where
  ftype : FieldType
  required : Bool
  unique : Bool
  computed : Bool
  compute : Option (Fields → Value)

/-- Modelled from the spec: a plain schema-definition object
(`additionalProperties` policy plus the declarative field map). -/
structure SchemaDef : Type where
  additionalProperties : Bool
  fields : List (String × FieldDef)

/-- Modelled from the spec: the Schema constructor — builds Field entries from
the declarative map; the hook registry starts empty. -/
def schemaOfDef (d : SchemaDef) : Schema :=
  Schema.mk d.additionalProperties
    (d.fields.map (fun nf =>
      Field.mk nf.1 nf.2.ftype nf.2.required nf.2.unique nf.2.computed nf.2.compute))
    [] []

/-- A registered Resource as held in Pocket's registry: its name and Schema
(binding to the store is through the owning Pocket and not registry data). -/
structure ResourceModel : Type where
  name : String
  schema : Schema

/-- The part of Pocket's state that `Pocket.resource` reads and writes:
`this.resources`, the name-keyed resource registry. -/
structure PocketSt : Type where
  resources : List (String × ResourceModel)

/-- The `schema` argument of `Pocket.resource`: a `Schema` instance or a plain
definition object (absence is modelled by `Option` at the call). -/
inductive SchemaArg : Type where
  | inst (s : Schema)
  | plain (d : SchemaDef)

/-- The schema a `Pocket.resource` call ends up using: a plain object is wrapped
by `new Schema(schema)`, an instance is used as is (pocket.js lines 78-80). -/
def schemaArgToSchema : SchemaArg → Schema
  | .inst s => s
  | .plain d => schemaOfDef d

/-- Embedded from `src/src/pocket.js` lines 69-85 (`Pocket.resource`): with no
schema argument, return the registry entry (possibly absent); with a schema
argument, throw when the name is already registered, otherwise wrap a plain
definition into a Schema, build the Resource and register it under its name. -/
def pocketResource (p : PocketSt) (nm : String) (schema : Option SchemaArg) :
    Except String (Option ResourceModel) × PocketSt :=
  match schema with
  | none => (Except.ok (alookup nm p.resources), p)
  | some sa =>
    match alookup nm p.resources with
    | some _ =>
      (Except.error ("Resource with the name " ++ nm ++ " already registered"), p)
    | none =>
      let r : ResourceModel := ResourceModel.mk nm (schemaArgToSchema sa)
      (Except.ok (some r), PocketSt.mk ((r.name, r) :: p.resources))

/-- A well-formed Schema declares each field name once (field declarations come
from the keys of a JS object). -/
abbrev WellFormed (s : Schema) : Prop :=
  (s.fields.map Field.name).Nodup

/-- The empty store a fresh Resource starts from. -/
def St0 : St := St.mk [] [] 0 0

/-- Store states of one Resource reachable from the empty store through the
engine's mutating operations (failed operations keep the state they were
given, so every run of the engine stays inside this set). -/
inductive Reachable (s : Schema) : St → Prop where
  | init : Reachable s St0
  | create (input : Fields) (st : St) :
      Reachable s st → Reachable s (resourceCreate s input st).2
  | mergeOne (id : String) (patch : Fields) (st : St) :
      Reachable s st → Reachable s (resourceMergeOne s id patch st).2
  | attach (id nm : String) (src : Option (List Nat)) (st : St) :
      Reachable s st → Reachable s (resourceAttach s id nm src st).2
  | deleteAttachment (id attId : String) (st : St) :
      Reachable s st → Reachable s (resourceDeleteAttachment s id attId st).2
  | removeOne (id : String) (st : St) :
      Reachable s st → Reachable s (resourceRemoveOne st id)
  | drop (st : St) :
      Reachable s st → Reachable s (resourceDrop st)

/-- The computed-field function of the test schema's `nickname` field. -/
def nicknameCompute : Fields → Value :=
  fun fs =>
    match alookup "firstname" fs with
    | some (Value.str f) => Value.str ("little " ++ f)
    | _ => Value.str "unnamed"

/-- The `person` test schema of `test/resource.test.js`: `firstname`,
`lastname` strings, `age` number, `username` unique string, computed
`nickname`, `additionalProperties: false`, no hooks installed. -/
def personSchema : Schema :=
  Schema.mk false
    [Field.mk "firstname" FieldType.string false false false none,
     Field.mk "lastname" FieldType.string false false false none,
     Field.mk "age" FieldType.number false false false none,
     Field.mk "username" FieldType.string false true false none,
     Field.mk "nickname" FieldType.string false false true (some nicknameCompute)]
    [] []

/-- The `find`-before hook of the hook test: rewrite `query._id` to the real id. -/
def hookRewriteId : Fields → Fields :=
  fun q => setField q "_id" (Value.str "id-0")

/-- The `find`-after hook of the hook test: append `"ny"` to the first returned
record's `username`. -/
def hookAppendNy : List Record → List Record
  | [] => []
  | r :: rest =>
    (match alookup "username" r.fields with
     | some (Value.str u) =>
       Record.mk (setField r.fields "username" (Value.str (u ++ "ny"))) r.rid r.attachments
     | _ => r) :: rest

/-- The person schema with the hook test's `find` hooks registered. -/
def personSchemaHooked : Schema :=
  Schema.mk personSchema.additionalProperties personSchema.fields
    [hookRewriteId] [hookAppendNy]

/-- The store holding exactly the record the hook test creates. -/
def hookSt : St :=
  St.mk [Record.mk [("username", Value.str "john"), ("firstname", Value.str "john")]
          "id-0" []] [] 1 0

/-- A plain two-string-field schema used by concrete witnesses. -/
def plainSchema : Schema :=
  Schema.mk false
    [Field.mk "firstname" FieldType.string false false false none,
     Field.mk "lastname" FieldType.string false false false none]
    [] []

/-- A store of ten stored records used by the pagination witness. -/
def st10 : St :=
  St.mk ((List.range 10).map (fun i =>
      Record.mk [("username", Value.str ("random " ++ toString i))]
        ("id-" ++ toString i) []))
    [] 10 0

/-- A plain schema-definition object used by the registration witness. -/
def sampleDef : SchemaDef :=
  SchemaDef.mk false [("firstname", FieldDef.mk FieldType.string false false false none)]

/-- The record `{firstname: "John", lastname: "Smith"}` under id `id-0`. -/
def johnRecord : Record :=
  Record.mk [("firstname", Value.str "John"), ("lastname", Value.str "Smith")] "id-0" []

/-- A store holding exactly `johnRecord`. -/
def oneRecordSt : St := St.mk [johnRecord] [] 1 0

/-- `johnRecord` after merging the patch `{lastname: "Doe"}`. -/
def mergedJohn : Record :=
  Record.mk [("firstname", Value.str "John"), ("lastname", Value.str "Doe")] "id-0" []

/-- The store holding exactly `mergedJohn`. -/
def mergedSt : St := St.mk [mergedJohn] [] 1 0

/-- The first colliding input of the unique-constraint scenario. -/
def cedricInput : Fields :=
  [("firstname", Value.str "Cedric"), ("username", Value.str "KebabLover69")]

/-- The second colliding input of the unique-constraint scenario. -/
def marcelInput : Fields :=
  [("firstname", Value.str "Marcel"), ("username", Value.str "KebabLover69")]

/-! ### Association-list and `setField` lemmas -/

theorem alookup_setField_self (fs : Fields) (k : String) (v : Value) :
    alookup k (setField fs k v) = some v := by
  induction fs with
  | nil => simp [setField, alookup]
  | cons kv rest ih =>
    by_cases hk : kv.1 = k
    · simp [setField, hk, alookup]
    · simp [setField, hk, alookup, ih]

theorem alookup_setField_ne (fs : Fields) (k k2 : String) (v : Value) (h : k2 ≠ k) :
    alookup k (setField fs k2 v) = alookup k fs := by
  induction fs with
  | nil => simp [setField, alookup, h]
  | cons kv rest ih =>
    by_cases hk : kv.1 = k2
    · simp [setField, hk, alookup, h]
    · simp [setField, hk, alookup, ih]

theorem mem_setField (fs : Fields) (k : String) (v : Value) (kv : String × Value)
    (hkv : kv ∈ setField fs k v) : kv ∈ fs ∨ kv = (k, v) := by
  induction fs with
  | nil =>
    simp only [setField, List.mem_singleton] at hkv
    exact Or.inr hkv
  | cons kv0 rest ih =>
    by_cases hk : kv0.1 = k
    · simp only [setField, if_pos hk, List.mem_cons] at hkv
      rcases hkv with h | h
      · exact Or.inr h
      · exact Or.inl (List.mem_cons_of_mem _ h)
    · simp only [setField, if_neg hk, List.mem_cons] at hkv
      rcases hkv with h | h
      · exact Or.inl (h ▸ List.mem_cons_self _ _)
      · rcases ih h with h2 | h2
        · exact Or.inl (List.mem_cons_of_mem _ h2)
        · exact Or.inr h2

theorem alookup_saturated_setField (fs : Fields) (k : String) (v : Value)
    (h : alookup k fs = some v) : setField fs k v = fs := by
  induction fs with
  | nil => simp [alookup] at h
  | cons kv rest ih =>
    by_cases hk : kv.1 = k
    · simp only [alookup, if_pos hk, Option.some.injEq] at h
      obtain ⟨a, b⟩ := kv
      simp only at hk h
      simp [setField, hk, h]
    · simp only [alookup, if_neg hk] at h
      simp [setField, hk, ih h]

theorem alookup_mergeFields_not_mem (p : Fields) (fs : Fields) (k : String)
    (hk : k ∉ p.map Prod.fst) :
    alookup k (mergeFields fs p) = alookup k fs := by
  induction p generalizing fs with
  | nil => rfl
  | cons kv rest ih =>
    simp only [List.map_cons, List.mem_cons] at hk
    push_neg at hk
    have step : mergeFields fs (kv :: rest) = mergeFields (setField fs kv.1 kv.2) rest := rfl
    rw [step, ih _ hk.2, alookup_setField_ne _ _ _ _ (Ne.symm hk.1)]

theorem mergeFields_idem (p : Fields) (fs : Fields)
    (hnd : (p.map Prod.fst).Nodup) :
    mergeFields (mergeFields fs p) p = mergeFields fs p := by
  induction p generalizing fs with
  | nil => rfl
  | cons kv rest ih =>
    simp only [List.map_cons, List.nodup_cons] at hnd
    obtain ⟨hk, hnd2⟩ := hnd
    have step : ∀ g : Fields, mergeFields g (kv :: rest) = mergeFields (setField g kv.1 kv.2) rest :=
      fun g => rfl
    rw [step, step]
    have hsat : alookup kv.1 (mergeFields (setField fs kv.1 kv.2) rest) = some kv.2 := by
      rw [alookup_mergeFields_not_mem rest _ kv.1 hk, alookup_setField_self]
    rw [alookup_saturated_setField _ _ _ hsat]
    exact ih _ hnd2

theorem mem_mergeFields (p fs : Fields) (kv : String × Value)
    (h : kv ∈ mergeFields fs p) : kv ∈ fs ∨ kv ∈ p := by
  induction p generalizing fs with
  | nil => exact Or.inl h
  | cons kv0 rest ih =>
    have step : mergeFields fs (kv0 :: rest) = mergeFields (setField fs kv0.1 kv0.2) rest := rfl
    rw [step] at h
    rcases ih _ h with h2 | h2
    · rcases mem_setField _ _ _ _ h2 with h3 | h3
      · exact Or.inl h3
      · exact Or.inr (h3 ▸ List.mem_cons_self _ _)
    · exact Or.inr (List.mem_cons_of_mem _ h2)

/-! ### `stripComputed` lemmas -/

theorem stripComputed_eq_self (s : Schema) (fs : Fields)
    (h : ∀ kv ∈ fs, isComputedName s kv.1 = false) :
    stripComputed s fs = fs := by
  unfold stripComputed
  rw [List.filter_eq_self]
  intro kv hkv
  simp [h kv hkv]

theorem stripComputed_setField (s : Schema) (fs : Fields) (k : String) (v : Value)
    (h : isComputedName s k = true) :
    stripComputed s (setField fs k v) = stripComputed s fs := by
  induction fs with
  | nil => simp [setField, stripComputed, h]
  | cons kv rest ih =>
    by_cases hk : kv.1 = k
    · have hkc : isComputedName s kv.1 = true := by rw [hk]; exact h
      simp [setField, hk, stripComputed, List.filter_cons, h, hkc]
    · simp only [setField, if_neg hk]
      unfold stripComputed at ih ⊢
      cases hp : (!isComputedName s kv.1) <;> simp [List.filter_cons, hp, ih]

/-! ### Schema and computed-field resolution lemmas -/

theorem find?_name_nodup (l : List Field) (f : Field)
    (hnd : (l.map Field.name).Nodup) (hf : f ∈ l) :
    l.find? (fun g => g.name == f.name) = some f := by
  induction l with
  | nil => simp at hf
  | cons g rest ih =>
    simp only [List.map_cons, List.nodup_cons] at hnd
    obtain ⟨hg, hnd2⟩ := hnd
    rcases List.mem_cons.mp hf with h | h
    · subst h
      exact List.find?_cons_of_pos _ (by simp)
    · have hne : g.name ≠ f.name := by
        intro he
        exact hg (he ▸ List.mem_map.mpr ⟨f, h, rfl⟩)
      rw [List.find?_cons_of_neg _ (by simp [hne]), ih hnd2 h]

theorem findField_wf (s : Schema) (f : Field) (hwf : WellFormed s) (hf : f ∈ s.fields) :
    findField s f.name = some f :=
  find?_name_nodup s.fields f hwf hf

theorem isComputedName_of_mem (s : Schema) (f : Field) (hwf : WellFormed s)
    (hf : f ∈ s.fields) : isComputedName s f.name = f.computed := by
  unfold isComputedName
  rw [findField_wf s f hwf hf]

theorem stripComputed_foldl (s : Schema) (l : List Field) (base : Fields)
    (hl : ∀ f ∈ l, f.computed = true → isComputedName s f.name = true) :
    ∀ acc, stripComputed s (l.foldl (computeStep base) acc) = stripComputed s acc := by
  induction l with
  | nil => intro acc; rfl
  | cons f rest ih =>
    intro acc
    have hrest : ∀ g ∈ rest, g.computed = true → isComputedName s g.name = true :=
      fun g hg => hl g (List.mem_cons_of_mem _ hg)
    rw [List.foldl_cons, ih hrest]
    unfold computeStep
    cases hc : f.compute with
    | none => rfl
    | some g =>
      cases hcomp : f.computed with
      | false => simp
      | true =>
        simp only [if_pos rfl]
        exact stripComputed_setField s acc f.name (g base)
          (hl f (List.mem_cons_self _ _) hcomp)

theorem stripComputed_resolveComputed (s : Schema) (r : Record) (hwf : WellFormed s) :
    stripComputed s (resolveComputed s r).fields = stripComputed s r.fields := by
  show stripComputed s (s.fields.foldl (computeStep r.fields) r.fields)
      = stripComputed s r.fields
  exact stripComputed_foldl s s.fields r.fields
    (fun f hf hc => by rw [isComputedName_of_mem s f hwf hf]; exact hc) r.fields

theorem alookup_foldl_not_mem (l : List Field) (base : Fields) (k : String)
    (hk : ∀ f ∈ l, f.name ≠ k) :
    ∀ acc, alookup k (l.foldl (computeStep base) acc) = alookup k acc := by
  induction l with
  | nil => intro acc; rfl
  | cons f rest ih =>
    intro acc
    have hrest : ∀ g ∈ rest, g.name ≠ k := fun g hg => hk g (List.mem_cons_of_mem _ hg)
    rw [List.foldl_cons, ih hrest]
    unfold computeStep
    cases hc : f.compute with
    | none => rfl
    | some g =>
      cases hcomp : f.computed with
      | false => simp
      | true =>
        simp only [if_pos rfl]
        exact alookup_setField_ne acc k f.name (g base) (hk f (List.mem_cons_self _ _))

theorem alookup_foldl_computed (l : List Field) (base : Fields) (f : Field)
    (g : Fields → Value) (hnd : (l.map Field.name).Nodup) (hf : f ∈ l)
    (hcomp : f.computed = true) (hg : f.compute = some g) :
    ∀ acc, alookup f.name (l.foldl (computeStep base) acc) = some (g base) := by
  induction l with
  | nil => simp at hf
  | cons f0 rest ih =>
    intro acc
    simp only [List.map_cons, List.nodup_cons] at hnd
    obtain ⟨h0, hnd2⟩ := hnd
    rcases List.mem_cons.mp hf with h | h
    · subst h
      rw [List.foldl_cons]
      have hnm : ∀ g2 ∈ rest, g2.name ≠ f.name := by
        intro g2 hg2 he
        exact h0 (he ▸ List.mem_map.mpr ⟨g2, hg2, rfl⟩)
      rw [alookup_foldl_not_mem rest base f.name hnm]
      unfold computeStep
      rw [hg]
      simp only [hcomp, if_pos rfl]
      exact alookup_setField_self acc f.name (g base)
    · rw [List.foldl_cons]
      exact ih hnd2 h _

theorem alookup_resolveComputed (s : Schema) (r : Record) (f : Field) (g : Fields → Value)
    (hwf : WellFormed s) (hf : f ∈ s.fields) (hcomp : f.computed = true)
    (hg : f.compute = some g) :
    alookup f.name (resolveComputed s r).fields = some (g r.fields) :=
  alookup_foldl_computed s.fields r.fields f g hwf hf hcomp hg r.fields

/-! ### Record-store lemmas -/

theorem getRecord_some_rid (st : St) (id : String) (r : Record)
    (h : getRecord st id = some r) : r.rid = id := by
  have := List.find?_some h
  simpa using this

theorem getRecord_mem (st : St) (id : String) (r : Record)
    (h : getRecord st id = some r) : r ∈ st.records :=
  List.mem_of_find?_eq_some h

theorem find?_map_put (l : List Record) (id : String) (nr : Record)
    (hl : ∃ r0 ∈ l, r0.rid = id) (hnr : nr.rid = id) :
    (l.map (fun r0 => if r0.rid = id then nr else r0)).find?
        (fun r => r.rid == id) = some nr := by
  induction l with
  | nil => simp at hl
  | cons r rest ih =>
    by_cases hr : r.rid = id
    · simp only [List.map_cons, if_pos hr]
      exact List.find?_cons_of_pos _ (by simp [hnr])
    · simp only [List.map_cons, if_neg hr]
      rw [List.find?_cons_of_neg _ (by simp [hr])]
      apply ih
      rcases hl with ⟨r0, hmem, hid⟩
      rcases List.mem_cons.mp hmem with he | he
      · exact absurd (he ▸ hid) hr
      · exact ⟨r0, he, hid⟩

theorem getRecord_putRecord (st : St) (id : String) (r0 nr : Record)
    (h : getRecord st id = some r0) (hnr : nr.rid = id) :
    getRecord (putRecord st id nr) id = some nr :=
  find?_map_put st.records id nr
    ⟨r0, getRecord_mem st id r0 h, getRecord_some_rid st id r0 h⟩ hnr

theorem find?_append_fresh (l : List Record) (nr : Record) (id : String)
    (h : ∀ r ∈ l, r.rid ≠ id) (hnr : nr.rid = id) :
    (l ++ [nr]).find? (fun r => r.rid == id) = some nr := by
  induction l with
  | nil => simp [List.find?_cons_of_pos, hnr]
  | cons r rest ih =>
    rw [List.cons_append, List.find?_cons_of_neg _ (by simp [h r (List.mem_cons_self _ _)])]
    exact ih fun r2 h2 => h r2 (List.mem_cons_of_mem _ h2)

theorem alookup_filter_none {β : Type} (k : String) (pred : String × β → Bool)
    (l : List (String × β)) (h : ∀ b ∈ l, b.1 = k → pred b = false) :
    alookup k (l.filter pred) = none := by
  induction l with
  | nil => rfl
  | cons b rest ih =>
    have hrest : ∀ b2 ∈ rest, b2.1 = k → pred b2 = false :=
      fun b2 h2 => h b2 (List.mem_cons_of_mem _ h2)
    by_cases hb : b.1 = k
    · rw [List.filter_cons, h b (List.mem_cons_self _ _) hb]
      exact ih hrest
    · rw [List.filter_cons]
      cases hp : pred b
      · simpa using ih hrest
      · simpa [alookup, hb] using ih hrest

/-! ### Pagination lemmas -/

theorem length_le_totalPages_mul (n p : Nat) (hp : 0 < p) :
    n ≤ totalPagesFor n p * p := by
  unfold totalPagesFor
  rcases Nat.eq_zero_or_pos n with h0 | h0
  · subst h0; simp
  · have h1 : (n + p - 1) % p < p := Nat.mod_lt _ hp
    have h2 : p * ((n + p - 1) / p) + (n + p - 1) % p = n + p - 1 := Nat.div_add_mod _ _
    have h3 : (n + p - 1) / p * p = p * ((n + p - 1) / p) := Nat.mul_comm _ _
    omega

theorem chunks_flatten_aux {α : Type} (p : Nat) :
    ∀ (m : Nat) (l : List α), l.length ≤ m * p →
      ((List.range m).map (fun i => (l.drop (i * p)).take p)).flatten = l := by
  intro m
  induction m with
  | zero =>
    intro l hl
    simp only [Nat.zero_mul, Nat.le_zero, List.length_eq_zero] at hl
    subst hl
    rfl
  | succ m ih =>
    intro l hl
    rw [List.range_succ_eq_map]
    simp only [List.map_cons, List.map_map, List.flatten_cons]
    have htail : ((fun i => (l.drop (i * p)).take p) ∘ Nat.succ)
        = fun i => ((l.drop p).drop (i * p)).take p := by
      funext i
      simp only [Function.comp]
      rw [List.drop_drop]
      have hsucc : Nat.succ i * p = i * p + p := Nat.succ_mul i p
      have hpi : p + i * p = Nat.succ i * p := by omega
      rw [hpi]
    rw [htail, ih (l.drop p)
      (by rw [List.length_drop]
          have h2 : (m + 1) * p = m * p + p := Nat.succ_mul m p
          omega)]
    simp only [Nat.zero_mul, List.drop_zero]
    exact List.take_append_drop p l

theorem chunks_flatten {α : Type} (l : List α) (p : Nat) (hp : 0 < p) :
    ((List.range (totalPagesFor l.length p)).map
      (fun i => (l.drop (i * p)).take p)).flatten = l :=
  chunks_flatten_aux p (totalPagesFor l.length p) l (length_le_totalPages_mul l.length p hp)

theorem page_full {α : Type} (l : List α) (p i : Nat) (hp : 0 < p)
    (hi : i + 1 < totalPagesFor l.length p) :
    ((l.drop (i * p)).take p).length = p := by
  unfold totalPagesFor at hi
  have h1 : (i + 2) * p ≤ l.length + p - 1 :=
    (Nat.le_div_iff_mul_le hp).mp (by omega)
  have h2 : (i + 2) * p = i * p + p + p := by ring
  have h3 : i * p + p + 1 ≤ l.length := by omega
  rw [List.length_take, List.length_drop]
  rcases Nat.le_total p (l.length - i * p) with hle | hle
  · exact Nat.min_eq_left hle
  · omega

/-! ### Claims -/

/-- C6: for every record id and every source whose content cannot be read,
`attach` fails with `NotFoundError`, and the failure occurs before any record
mutation: the whole store — in particular the record's fields and its
`_attachments` sequence — is unchanged by the failed call. -/
theorem attach_unreadable_fails_before_mutation (s : Schema) (id nm : String) (st : St) :
    resourceAttach s id nm none st = (Except.error Err.notFoundError, st) ∧
    (resourceAttach s id nm none st).2.records = st.records := by
  exact ⟨rfl, rfl⟩

/-- C2: a record that violates a declared Schema constraint makes `create` fail
with `ValidationError` and persists nothing — the state and hence the
`find({})` record count are unchanged; moreover an unknown field under
`additionalProperties = false` is such a violation. -/
theorem create_invalid_fails_cleanly (s : Schema) (r : Fields) (st : St) :
    (validateRecord s r ≠ [] →
      resourceCreate s r st
        = (Except.error (Err.validationError (validateRecord s r)), st) ∧
      (resourceFind s [] noOpts (resourceCreate s r st).2).records.length
        = (resourceFind s [] noOpts st).records.length) ∧
    (s.additionalProperties = false → ∀ kv ∈ r, findField s kv.1 = none →
      validateRecord s r ≠ []) := by
  constructor
  · intro hbad
    have hne : (validateRecord s r).isEmpty = false := by
      cases hv : validateRecord s r with
      | nil => exact absurd hv hbad
      | cons a l => rfl
    have hcreate : resourceCreate s r st
        = (Except.error (Err.validationError (validateRecord s r)), st) := by
      unfold resourceCreate
      simp [hne]
    exact ⟨hcreate, by rw [hcreate]⟩
  · intro hap kv hkv hnone hval
    unfold validateRecord at hval
    simp only [hap, Bool.false_eq_true, if_false, List.append_eq_nil,
      List.map_eq_nil_iff, List.filter_eq_nil_iff] at hval
    exact hval.1.1 kv hkv (by simp [hnone])

/-- C10: `Pocket.resource` registers at most one Resource per name — with a free
name and a schema argument it builds and registers the Resource (wrapping a
plain definition object into a Schema first), a second call with the same
name and any schema argument throws, a call with the name and no schema
argument returns the registered Resource, and with no schema argument and an
unregistered name it returns nothing. -/
theorem pocket_resource_registration (p : PocketSt) (nm : String) (sa sa2 : SchemaArg)
    (d : SchemaDef) (hfree : alookup nm p.resources = none) :
    pocketResource p nm (some sa)
      = (Except.ok (some (ResourceModel.mk nm (schemaArgToSchema sa))),
         PocketSt.mk ((nm, ResourceModel.mk nm (schemaArgToSchema sa)) :: p.resources)) ∧
    pocketResource (pocketResource p nm (some sa)).2 nm (some sa2)
      = (Except.error ("Resource with the name " ++ nm ++ " already registered"),
         (pocketResource p nm (some sa)).2) ∧
    pocketResource (pocketResource p nm (some sa)).2 nm none
      = (Except.ok (some (ResourceModel.mk nm (schemaArgToSchema sa))),
         (pocketResource p nm (some sa)).2) ∧
    pocketResource p nm none = (Except.ok none, p) ∧
    schemaArgToSchema (SchemaArg.plain d) = schemaOfDef d := by
  have h1 : pocketResource p nm (some sa)
      = (Except.ok (some (ResourceModel.mk nm (schemaArgToSchema sa))),
         PocketSt.mk ((nm, ResourceModel.mk nm (schemaArgToSchema sa)) :: p.resources)) := by
    unfold pocketResource
    rw [hfree]
  have hreg : alookup nm ((nm, ResourceModel.mk nm (schemaArgToSchema sa)) :: p.resources)
      = some (ResourceModel.mk nm (schemaArgToSchema sa)) := by
    simp [alookup]
  refine ⟨h1, ?_, ?_, ?_, rfl⟩
  · rw [h1]
    unfold pocketResource
    rw [hreg]
  · rw [h1]
    unfold pocketResource
    rw [hreg]
  · unfold pocketResource
    rw [hfree]

/-- Witness for C2 at the invalid-schema input of the test-suite. -/
theorem create_invalid_fails_cleanly_witness :
    resourceCreate personSchema
        [("firstname", Value.str "John"), ("bad", Value.str "property")] St0
      = (Except.error (Err.validationError (validateRecord personSchema
          [("firstname", Value.str "John"), ("bad", Value.str "property")])), St0) :=
  ((create_invalid_fails_cleanly personSchema
    [("firstname", Value.str "John"), ("bad", Value.str "property")] St0).1 (by decide)).1

/-- Witness for C10 at a concrete empty registry. -/
theorem pocket_resource_registration_witness :
    pocketResource (PocketSt.mk []) "person" none = (Except.ok none, PocketSt.mk []) :=
  (pocket_resource_registration (PocketSt.mk []) "person" (SchemaArg.plain sampleDef)
    (SchemaArg.plain sampleDef) sampleDef rfl).2.2.2.1

/-- C1: for every record valid under its Schema (and carrying no computed-field
name), `create` succeeds, and `get` on the returned record's `_id` yields
that same record: the assigned opaque `_id` string, an empty `_attachments`
sequence, and — once derived computed fields are put aside — exactly the
fields of the input record. -/
theorem create_get_roundtrip (s : Schema) (r : Fields) (st : St)
    (hwf : WellFormed s)
    (hval : validateRecord s r = [])
    (hclean : ∀ kv ∈ r, isComputedName s kv.1 = false)
    (huniq : uniqueViolation s st r none = none)
    (hfresh : ∀ r0 ∈ st.records, r0.rid ≠ genId st) :
    (resourceCreate s r st).1
        = Except.ok (resolveComputed s (Record.mk r (genId st) [])) ∧
    resourceGet s (genId st) (resourceCreate s r st).2
        = some (resolveComputed s (Record.mk r (genId st) [])) ∧
    (resolveComputed s (Record.mk r (genId st) [])).rid = genId st ∧
    (resolveComputed s (Record.mk r (genId st) [])).attachments = [] ∧
    stripComputed s (resolveComputed s (Record.mk r (genId st) [])).fields = r := by
  have hstrip : stripComputed s r = r := stripComputed_eq_self s r hclean
  have hcreate : resourceCreate s r st
      = (Except.ok (resolveComputed s (Record.mk r (genId st) [])),
         St.mk (st.records ++ [Record.mk r (genId st) []]) st.blobs
           (st.nextId + 1) st.nextBlobId) := by
    unfold resourceCreate
    simp only [hval, List.isEmpty_nil, if_true, hstrip, huniq]
  refine ⟨by rw [hcreate], ?_, rfl, rfl, ?_⟩
  · rw [hcreate]
    unfold resourceGet getRecord
    rw [find?_append_fresh st.records (Record.mk r (genId st) []) (genId st) hfresh rfl]
    rfl
  · rw [stripComputed_resolveComputed s (Record.mk r (genId st) []) hwf]
    exact hstrip

/-- Witness for C1 at the test-suite's `{firstname: "John"}` input. -/
theorem create_get_roundtrip_witness :
    (resourceCreate personSchema [("firstname", Value.str "John")] St0).1
      = Except.ok (resolveComputed personSchema
          (Record.mk [("firstname", Value.str "John")] (genId St0) [])) :=
  (create_get_roundtrip personSchema [("firstname", Value.str "John")] St0
    (by decide) (by decide) (by decide) (by decide) (by decide)).1

/-- C3: for every pair of sequential `create` calls whose inputs collide on a
unique-indexed field, the first succeeds, the second fails with
`UniqueConstraintError` (writing nothing), and the record count increases by
exactly 1 over the pair. -/
theorem create_unique_conflict (s : Schema) (r1 r2 : Fields) (st : St) (v : Value)
    (hval1 : validateRecord s r1 = [])
    (huniq1 : uniqueViolation s st (stripComputed s r1) none = none)
    (hval2 : validateRecord s r2 = [])
    (hu : ∃ f ∈ s.fields, f.unique = true ∧
      alookup f.name (stripComputed s r1) = some v ∧
      alookup f.name (stripComputed s r2) = some v) :
    (resourceCreate s r1 st).1
        = Except.ok (resolveComputed s (Record.mk (stripComputed s r1) (genId st) [])) ∧
    (resourceCreate s r1 st).2.records.length = st.records.length + 1 ∧
    (∃ fname, (resourceCreate s r2 (resourceCreate s r1 st).2).1
        = Except.error (Err.uniqueConstraintError fname)) ∧
    (resourceCreate s r2 (resourceCreate s r1 st).2).2 = (resourceCreate s r1 st).2 := by
  have hcreate : resourceCreate s r1 st
      = (Except.ok (resolveComputed s (Record.mk (stripComputed s r1) (genId st) [])),
         St.mk (st.records ++ [Record.mk (stripComputed s r1) (genId st) []]) st.blobs
           (st.nextId + 1) st.nextBlobId) := by
    unfold resourceCreate
    simp only [hval1, List.isEmpty_nil, if_true, huniq1]
  obtain ⟨f, hf, hfu, hv1, hv2⟩ := hu
  have hviol : uniqueViolation s (resourceCreate s r1 st).2 (stripComputed s r2) none ≠ none := by
    intro hnone
    rw [hcreate] at hnone
    unfold uniqueViolation at hnone
    rw [List.findSome?_eq_none_iff] at hnone
    have hinner := hnone f hf
    rw [if_pos hfu, hv2] at hinner
    simp only [Bool.true_and] at hinner
    have hany : (st.records ++ [Record.mk (stripComputed s r1) (genId st) []]).any
        (fun r => alookup f.name r.fields == some v) = true := by
      apply List.any_eq_true.mpr
      refine ⟨Record.mk (stripComputed s r1) (genId st) [], ?_, ?_⟩
      · exact List.mem_append.mpr (Or.inr (List.mem_singleton.mpr rfl))
      · simp [hv1]
    rw [hany] at hinner
    simp at hinner
  obtain ⟨fname, hfname⟩ := Option.ne_none_iff_exists.mp hviol
  have hcreate2 : ∀ st1, uniqueViolation s st1 (stripComputed s r2) none = some fname →
      resourceCreate s r2 st1 = (Except.error (Err.uniqueConstraintError fname), st1) := by
    intro st1 huv
    unfold resourceCreate
    rw [hval2]
    simp only [List.isEmpty_nil, if_true, huv]
  have h2 := hcreate2 _ hfname.symm
  refine ⟨by rw [hcreate], ?_, ⟨fname, by rw [h2]⟩, by rw [h2]⟩
  rw [hcreate]
  simp

/-- Witness for C3 at the test-suite's colliding `username` inputs. -/
theorem create_unique_conflict_witness :
    (resourceCreate personSchema cedricInput St0).1
        = Except.ok (resolveComputed personSchema
            (Record.mk (stripComputed personSchema cedricInput) (genId St0) [])) ∧
    (resourceCreate personSchema cedricInput St0).2.records.length
        = St0.records.length + 1 ∧
    (∃ fname, (resourceCreate personSchema marcelInput
          (resourceCreate personSchema cedricInput St0).2).1
        = Except.error (Err.uniqueConstraintError fname)) ∧
    (resourceCreate personSchema marcelInput
        (resourceCreate personSchema cedricInput St0).2).2
      = (resourceCreate personSchema cedricInput St0).2 :=
  create_unique_conflict personSchema cedricInput marcelInput St0
    (Value.str "KebabLover69") (by decide) (by decide) (by decide) (by decide)

/-- C5: a registered `before("find")` hook that rewrites `query._id` causes the
rewritten query to be the one executed (the same query without the hook finds
nothing), a registered `after("find")` hook mutating a returned record's
field is visible in the caller's result, and the hooks of one phase run
strictly in registration order, each completing before the next starts. -/
theorem find_hooks_pipeline :
    resourceFindOne personSchemaHooked [("_id", Value.str "badId")] noOpts hookSt
      = some (Record.mk
          [("username", Value.str "johnny"), ("firstname", Value.str "john"),
           ("nickname", Value.str "little john")] "id-0" []) ∧
    resourceFindOne personSchema [("_id", Value.str "badId")] noOpts hookSt = none ∧
    (∀ (f g : Fields → Fields) (q : Fields), applyHooks [f, g] q = g (f q)) ∧
    (∀ (h : Fields → Fields) (hs : List (Fields → Fields)) (q : Fields),
      applyHooks (h :: hs) q = applyHooks hs (h q)) ∧
    (∀ (h : List Record → List Record) (hs : List (List Record → List Record))
        (rs : List Record), applyHooks (h :: hs) rs = applyHooks hs (h rs)) :=
  ⟨by decide, by decide, fun f g q => rfl, fun h hs q => rfl, fun h hs rs => rfl⟩

/-- C4: pagination — for a matching count N and a pageSize P, every paged `find`
carries `PageMeta {page, pageSize, totalPages = ceil(N/P)}`, every page
before the last holds exactly P records, and the pages concatenated in page
order are exactly the unpaginated result. -/
theorem find_pagination (s : Schema) (q : Fields) (st : St) (p : Nat)
    (hhb : s.beforeFind = []) (hha : s.afterFind = []) (hp : 0 < p) :
    (∀ k : Nat, (resourceFind s q (FindOptions.mk (some p) k false) st).meta
        = some (PageMeta.mk k p
            (totalPagesFor (st.records.filter (matchQuery q)).length p))) ∧
    (∀ j : Nat, j + 1 < totalPagesFor (st.records.filter (matchQuery q)).length p →
      (resourceFind s q (FindOptions.mk (some p) (j + 1) false) st).records.length = p) ∧
    ((List.range (totalPagesFor (st.records.filter (matchQuery q)).length p)).map
        (fun j => (resourceFind s q (FindOptions.mk (some p) (j + 1) false) st).records)).flatten
      = (resourceFind s q noOpts st).records := by
  have hfind : ∀ k : Nat, resourceFind s q (FindOptions.mk (some p) k false) st
      = FindResult.mk
          ((((st.records.filter (matchQuery q)).drop ((k - 1) * p)).take p).map
            (resolveComputed s))
          (some (PageMeta.mk k p
            (totalPagesFor (st.records.filter (matchQuery q)).length p))) := by
    intro k
    unfold resourceFind
    rw [hhb, hha]
    rfl
  have hplain : resourceFind s q noOpts st
      = FindResult.mk ((st.records.filter (matchQuery q)).map (resolveComputed s)) none := by
    unfold resourceFind
    rw [hhb, hha]
    rfl
  refine ⟨fun k => by rw [hfind k], fun j hj => ?_, ?_⟩
  · rw [hfind (j + 1)]
    simp only [List.length_map, Nat.add_sub_cancel]
    exact page_full (st.records.filter (matchQuery q)) p j hp hj
  · have hwin : (fun j => (resourceFind s q (FindOptions.mk (some p) (j + 1) false) st).records)
        = fun j => (((st.records.filter (matchQuery q)).drop (j * p)).take p).map
            (resolveComputed s) := by
      funext j
      rw [hfind (j + 1)]
      simp only [Nat.add_sub_cancel]
    rw [hwin, hplain]
    rw [show (List.map
        (fun j => (((st.records.filter (matchQuery q)).drop (j * p)).take p).map
          (resolveComputed s))
        (List.range (totalPagesFor (st.records.filter (matchQuery q)).length p)))
      = List.map (List.map (resolveComputed s))
          (List.map (fun j => ((st.records.filter (matchQuery q)).drop (j * p)).take p)
            (List.range (totalPagesFor (st.records.filter (matchQuery q)).length p)))
      from by rw [List.map_map]; rfl]
    rw [← List.map_flatten, chunks_flatten _ p hp]

/-- Witness for C4 at the test-suite's ten-record, pageSize-6 scenario. -/
theorem find_pagination_witness :
    (resourceFind personSchema [] (FindOptions.mk (some 6) 1 false) st10).meta
      = some (PageMeta.mk 1 6
          (totalPagesFor ((st10.records.filter (matchQuery [])).length) 6)) :=
  (find_pagination personSchema [] st10 6 rfl rfl (by decide)).1 1

/-- C7: attachment round-trip — `attach` on an existing record succeeds and
appends a descriptor whose blob id reads back to the original byte content;
`deleteAttachment` on that id removes the descriptor from `_attachments` and
makes `readAttachment` fail with `NotFoundError`; removing the owning record
also removes the attachment's blob content. -/
theorem attachment_roundtrip (s : Schema) (id nm : String) (content : List Nat)
    (st : St) (r0 : Record) (h : getRecord st id = some r0) :
    (resourceAttach s id nm (some content) st).1
        = Except.ok (resolveComputed s (Record.mk r0.fields r0.rid
            (r0.attachments ++ [Attachment.mk (genBlobId st) nm (genBlobId st)]))) ∧
    Attachment.mk (genBlobId st) nm (genBlobId st) ∈
        (resolveComputed s (Record.mk r0.fields r0.rid
            (r0.attachments ++ [Attachment.mk (genBlobId st) nm (genBlobId st)]))).attachments ∧
    resourceReadAttachment (resourceAttach s id nm (some content) st).2 (genBlobId st)
        = Except.ok content ∧
    (resourceDeleteAttachment s id (genBlobId st)
          (resourceAttach s id nm (some content) st).2).1
        = Except.ok (resolveComputed s (Record.mk r0.fields r0.rid
            ((r0.attachments ++ [Attachment.mk (genBlobId st) nm (genBlobId st)]).filter
              (fun a => !(a.id == genBlobId st))))) ∧
    (∀ a ∈ (resolveComputed s (Record.mk r0.fields r0.rid
            ((r0.attachments ++ [Attachment.mk (genBlobId st) nm (genBlobId st)]).filter
              (fun a => !(a.id == genBlobId st))))).attachments,
        a.id ≠ genBlobId st) ∧
    resourceReadAttachment
        (resourceDeleteAttachment s id (genBlobId st)
          (resourceAttach s id nm (some content) st).2).2 (genBlobId st)
      = Except.error Err.notFoundError ∧
    resourceReadAttachment
        (resourceRemoveOne (resourceAttach s id nm (some content) st).2 id) (genBlobId st)
      = Except.error Err.notFoundError := by
  have hrid : r0.rid = id := getRecord_some_rid st id r0 h
  have hattach : resourceAttach s id nm (some content) st
      = (Except.ok (resolveComputed s (Record.mk r0.fields r0.rid
            (r0.attachments ++ [Attachment.mk (genBlobId st) nm (genBlobId st)]))),
         St.mk (putRecord st id (Record.mk r0.fields r0.rid
            (r0.attachments ++ [Attachment.mk (genBlobId st) nm (genBlobId st)]))).records
           ((genBlobId st, content) :: st.blobs) st.nextId (st.nextBlobId + 1)) := by
    unfold resourceAttach
    rw [h]
  have hget1 : getRecord (resourceAttach s id nm (some content) st).2 id
      = some (Record.mk r0.fields r0.rid
          (r0.attachments ++ [Attachment.mk (genBlobId st) nm (genBlobId st)])) := by
    rw [hattach]
    exact find?_map_put st.records id _
      ⟨r0, getRecord_mem st id r0 h, getRecord_some_rid st id r0 h⟩ hrid
  have hdelete : resourceDeleteAttachment s id (genBlobId st)
        (resourceAttach s id nm (some content) st).2
      = (Except.ok (resolveComputed s (Record.mk r0.fields r0.rid
            ((r0.attachments ++ [Attachment.mk (genBlobId st) nm (genBlobId st)]).filter
              (fun a => !(a.id == genBlobId st))))),
         St.mk
           (putRecord (resourceAttach s id nm (some content) st).2 id
             (Record.mk r0.fields r0.rid
               ((r0.attachments ++ [Attachment.mk (genBlobId st) nm (genBlobId st)]).filter
                 (fun a => !(a.id == genBlobId st))))).records
           ((resourceAttach s id nm (some content) st).2.blobs.filter
             (fun b => !(b.1 == genBlobId st)))
           (resourceAttach s id nm (some content) st).2.nextId
           (resourceAttach s id nm (some content) st).2.nextBlobId) := by
    unfold resourceDeleteAttachment
    rw [hget1]
  refine ⟨by rw [hattach], ?_, ?_, by rw [hdelete], ?_, ?_, ?_⟩
  · show _ ∈ r0.attachments ++ [Attachment.mk (genBlobId st) nm (genBlobId st)]
    exact List.mem_append.mpr (Or.inr (List.mem_singleton.mpr rfl))
  · rw [hattach]
    unfold resourceReadAttachment
    simp [alookup]
  · intro a ha
    have ha2 : a ∈ (r0.attachments ++ [Attachment.mk (genBlobId st) nm (genBlobId st)]).filter
        (fun a => !(a.id == genBlobId st)) := ha
    have := (List.mem_filter.mp ha2).2
    simpa using this
  · rw [hdelete]
    unfold resourceReadAttachment
    rw [alookup_filter_none _ _ _ (by intro b hb hb1; simp [hb1])]
  · have hremove : resourceRemoveOne (resourceAttach s id nm (some content) st).2 id
        = St.mk
            ((resourceAttach s id nm (some content) st).2.records.filter
              (fun r => !(r.rid == id)))
            ((resourceAttach s id nm (some content) st).2.blobs.filter
              (fun b => !((Record.mk r0.fields r0.rid
                  (r0.attachments ++ [Attachment.mk (genBlobId st) nm (genBlobId st)])).attachments.any
                (fun a => a.id == b.1))))
            (resourceAttach s id nm (some content) st).2.nextId
            (resourceAttach s id nm (some content) st).2.nextBlobId := by
      unfold resourceRemoveOne
      rw [hget1]
    rw [hremove]
    unfold resourceReadAttachment
    rw [alookup_filter_none _ _ _ ?_]
    intro b hb hb1
    have hany : (r0.attachments ++ [Attachment.mk (genBlobId st) nm (genBlobId st)]).any
        (fun a => a.id == b.1) = true := by
      apply List.any_eq_true.mpr
      refine ⟨Attachment.mk (genBlobId st) nm (genBlobId st),
        List.mem_append.mpr (Or.inr (List.mem_singleton.mpr rfl)), by simp [hb1]⟩
    simp [hany]

/-- Witness for C7 at a concrete one-record store and byte content. -/
theorem attachment_roundtrip_witness :
    resourceReadAttachment
        (resourceAttach plainSchema "id-0" "myimage" (some [1, 2, 3]) oneRecordSt).2
        (genBlobId oneRecordSt)
      = Except.ok [1, 2, 3] :=
  (attachment_roundtrip plainSchema "id-0" "myimage" [1, 2, 3] oneRecordSt johnRecord
    (by decide)).2.2.1

theorem any_exclude_put (l : List Record) (id : String) (nr : Record) (q : Record → Bool)
    (hnr : nr.rid = id) :
    (l.map (fun r0 => if r0.rid = id then nr else r0)).any
        (fun r => !(r.rid == id) && q r)
      = l.any (fun r => !(r.rid == id) && q r) := by
  induction l with
  | nil => rfl
  | cons r rest ih =>
    by_cases hr : r.rid = id
    · simp only [List.map_cons, if_pos hr, List.any_cons, ih]
      simp [hnr, hr]
    · simp only [List.map_cons, if_neg hr, List.any_cons, ih]

theorem uniqueViolation_putRecord (s : Schema) (st : St) (fs : Fields) (id : String)
    (nr : Record) (hnr : nr.rid = id) :
    uniqueViolation s (putRecord st id nr) fs (some id)
      = uniqueViolation s st fs (some id) := by
  unfold uniqueViolation
  congr 1
  funext f
  by_cases hu : f.unique = true
  · rw [if_pos hu, if_pos hu]
    cases hl : alookup f.name fs with
    | none => rfl
    | some v =>
      dsimp only
      rw [show (putRecord st id nr).records
          = st.records.map (fun r0 => if r0.rid = id then nr else r0) from rfl,
        any_exclude_put st.records id nr
          (fun r => alookup f.name r.fields == some v) hnr]
  · rw [if_neg hu, if_neg hu]

theorem map_put_idem (l : List Record) (id : String) (nr : Record) (hnr : nr.rid = id) :
    (l.map (fun r0 => if r0.rid = id then nr else r0)).map
        (fun r0 => if r0.rid = id then nr else r0)
      = l.map (fun r0 => if r0.rid = id then nr else r0) := by
  rw [List.map_map]
  apply List.map_congr_left
  intro r hr
  by_cases h : r.rid = id <;> simp [Function.comp, h, hnr]

theorem putRecord_putRecord (st : St) (id : String) (nr : Record) (hnr : nr.rid = id) :
    putRecord (putRecord st id nr) id nr = putRecord st id nr := by
  unfold putRecord
  dsimp only
  rw [map_put_idem st.records id nr hnr]

/-- C8: for every stored record and every patch (a JS object, so with distinct
keys), `mergeOne` is idempotent when reapplied with its own prior result:
merging the already-merged record with the same patch again succeeds and
yields the same final record and the same store. -/
theorem mergeOne_idempotent (s : Schema) (id : String) (patch : Fields) (st st1 : St)
    (r1 : Record)
    (hnd : ((sanitizePatch s patch).map Prod.fst).Nodup)
    (hok : resourceMergeOne s id patch st = (Except.ok r1, st1)) :
    resourceMergeOne s id patch st1 = (Except.ok r1, st1) := by
  unfold resourceMergeOne at hok
  cases hget : getRecord st id with
  | none =>
    rw [hget] at hok
    simp at hok
  | some r0 =>
    rw [hget] at hok
    dsimp only at hok
    by_cases hv : (validateRecord s
        (mergeFields r0.fields (sanitizePatch s patch))).isEmpty = true
    case neg =>
      rw [if_neg hv] at hok
      simp at hok
    case pos =>
      rw [if_pos hv] at hok
      cases huv : uniqueViolation s st
          (mergeFields r0.fields (sanitizePatch s patch)) (some id) with
      | some fn =>
        rw [huv] at hok
        simp at hok
      | none =>
        rw [huv] at hok
        simp only [Prod.mk.injEq, Except.ok.injEq] at hok
        obtain ⟨hr1, hst1⟩ := hok
        have hrid : r0.rid = id := getRecord_some_rid st id r0 hget
        unfold resourceMergeOne
        have hget2 : getRecord st1 id
            = some (Record.mk (mergeFields r0.fields (sanitizePatch s patch))
                r0.rid r0.attachments) := by
          rw [← hst1]
          exact getRecord_putRecord st id r0 _ hget hrid
        rw [hget2]
        dsimp only
        rw [mergeFields_idem _ _ hnd, if_pos hv]
        have huv2 : uniqueViolation s st1
            (mergeFields r0.fields (sanitizePatch s patch)) (some id) = none := by
          rw [← hst1,
            uniqueViolation_putRecord s st _ id
              (Record.mk (mergeFields r0.fields (sanitizePatch s patch))
                r0.rid r0.attachments) hrid]
          exact huv
        rw [huv2, ← hr1, ← hst1]
        rw [putRecord_putRecord st id
          (Record.mk (mergeFields r0.fields (sanitizePatch s patch))
            r0.rid r0.attachments) hrid]

/-- Witness for C8 at the test-suite's merge of `{lastname: "Doe"}`. -/
theorem mergeOne_idempotent_witness :
    resourceMergeOne plainSchema "id-0" [("lastname", Value.str "Doe")] mergedSt
      = (Except.ok mergedJohn, mergedSt) :=
  mergeOne_idempotent plainSchema "id-0" [("lastname", Value.str "Doe")] oneRecordSt
    mergedSt mergedJohn (by decide) rfl

theorem mem_stripComputed (s : Schema) (fs : Fields) (kv : String × Value)
    (h : kv ∈ stripComputed s fs) : kv ∈ fs ∧ isComputedName s kv.1 = false := by
  have h2 := List.mem_filter.mp h
  exact ⟨h2.1, by simpa using h2.2⟩

theorem create_records_cases (s : Schema) (input : Fields) (st : St) :
    (resourceCreate s input st).2.records = st.records ∨
    (resourceCreate s input st).2.records
      = st.records ++ [Record.mk (stripComputed s input) (genId st) []] := by
  unfold resourceCreate
  dsimp only
  by_cases hv : (validateRecord s input).isEmpty = true
  · rw [if_pos hv]
    cases huv : uniqueViolation s st (stripComputed s input) none with
    | some fname => exact Or.inl rfl
    | none => exact Or.inr rfl
  · rw [if_neg hv]
    exact Or.inl rfl

theorem mergeOne_records_cases (s : Schema) (id : String) (patch : Fields) (st : St) :
    (resourceMergeOne s id patch st).2.records = st.records ∨
    ∃ r0, getRecord st id = some r0 ∧
      (resourceMergeOne s id patch st).2.records
        = st.records.map (fun r => if r.rid = id then
            Record.mk (mergeFields r0.fields (sanitizePatch s patch)) r0.rid r0.attachments
          else r) := by
  unfold resourceMergeOne
  cases hget : getRecord st id with
  | none => exact Or.inl rfl
  | some r0 =>
    dsimp only
    by_cases hv : (validateRecord s
        (mergeFields r0.fields (sanitizePatch s patch))).isEmpty = true
    · rw [if_pos hv]
      cases huv : uniqueViolation s st
          (mergeFields r0.fields (sanitizePatch s patch)) (some id) with
      | some fname => exact Or.inl rfl
      | none => exact Or.inr ⟨r0, rfl, rfl⟩
    · rw [if_neg hv]
      exact Or.inl rfl

theorem attach_records_cases (s : Schema) (id nm : String) (src : Option (List Nat))
    (st : St) :
    (resourceAttach s id nm src st).2.records = st.records ∨
    ∃ r0, getRecord st id = some r0 ∧
      (resourceAttach s id nm src st).2.records
        = st.records.map (fun r => if r.rid = id then
            Record.mk r0.fields r0.rid
              (r0.attachments ++ [Attachment.mk (genBlobId st) nm (genBlobId st)])
          else r) := by
  unfold resourceAttach
  cases src with
  | none => exact Or.inl rfl
  | some content =>
    cases hget : getRecord st id with
    | none => exact Or.inl rfl
    | some r0 => exact Or.inr ⟨r0, rfl, rfl⟩

theorem deleteAttachment_records_cases (s : Schema) (id attId : String) (st : St) :
    (resourceDeleteAttachment s id attId st).2.records = st.records ∨
    ∃ r0, getRecord st id = some r0 ∧
      (resourceDeleteAttachment s id attId st).2.records
        = st.records.map (fun r => if r.rid = id then
            Record.mk r0.fields r0.rid
              (r0.attachments.filter (fun a => !(a.id == attId)))
          else r) := by
  unfold resourceDeleteAttachment
  cases hget : getRecord st id with
  | none => exact Or.inl rfl
  | some r0 => exact Or.inr ⟨r0, rfl, rfl⟩

theorem removeOne_records_cases (st : St) (id : String) :
    (resourceRemoveOne st id).records = st.records ∨
    (resourceRemoveOne st id).records = st.records.filter (fun r => !(r.rid == id)) := by
  unfold resourceRemoveOne
  cases hget : getRecord st id with
  | none => exact Or.inl rfl
  | some r0 => exact Or.inr rfl

/-- The stored-representation invariant: no record persisted by the engine ever
carries a computed-field binding. -/
theorem stored_no_computed (s : Schema) (st : St) (hre : Reachable s st) :
    ∀ r ∈ st.records, ∀ kv ∈ r.fields, isComputedName s kv.1 = false := by
  induction hre with
  | init =>
    intro r hr
    simp [St0] at hr
  | create input st2 hre2 ih =>
    intro r hr kv hkv
    rcases create_records_cases s input st2 with hc | hc
    · exact ih r (hc ▸ hr) kv hkv
    · rw [hc] at hr
      rcases List.mem_append.mp hr with h | h
      · exact ih r h kv hkv
      · rw [List.mem_singleton.mp h] at hkv
        exact (mem_stripComputed s input kv hkv).2
  | mergeOne id patch st2 hre2 ih =>
    intro r hr kv hkv
    rcases mergeOne_records_cases s id patch st2 with hc | ⟨r0, hget, hc⟩
    · exact ih r (hc ▸ hr) kv hkv
    · rw [hc] at hr
      rcases List.mem_map.mp hr with ⟨orig, horig, heq⟩
      by_cases ho : orig.rid = id
      · rw [if_pos ho] at heq
        rw [← heq] at hkv
        rcases mem_mergeFields _ _ kv hkv with h | h
        · exact ih r0 (getRecord_mem st2 id r0 hget) kv h
        · have h2 : kv ∈ stripComputed s
              (patch.filter (fun kv => !(kv.1 == "_id") && !(kv.1 == "_attachments"))) := h
          exact (mem_stripComputed s _ kv h2).2
      · rw [if_neg ho] at heq
        exact ih orig horig kv (heq ▸ hkv)
  | attach id nm src st2 hre2 ih =>
    intro r hr kv hkv
    rcases attach_records_cases s id nm src st2 with hc | ⟨r0, hget, hc⟩
    · exact ih r (hc ▸ hr) kv hkv
    · rw [hc] at hr
      rcases List.mem_map.mp hr with ⟨orig, horig, heq⟩
      by_cases ho : orig.rid = id
      · rw [if_pos ho] at heq
        rw [← heq] at hkv
        exact ih r0 (getRecord_mem st2 id r0 hget) kv hkv
      · rw [if_neg ho] at heq
        exact ih orig horig kv (heq ▸ hkv)
  | deleteAttachment id attId st2 hre2 ih =>
    intro r hr kv hkv
    rcases deleteAttachment_records_cases s id attId st2 with hc | ⟨r0, hget, hc⟩
    · exact ih r (hc ▸ hr) kv hkv
    · rw [hc] at hr
      rcases List.mem_map.mp hr with ⟨orig, horig, heq⟩
      by_cases ho : orig.rid = id
      · rw [if_pos ho] at heq
        rw [← heq] at hkv
        exact ih r0 (getRecord_mem st2 id r0 hget) kv hkv
      · rw [if_neg ho] at heq
        exact ih orig horig kv (heq ▸ hkv)
  | removeOne id st2 hre2 ih =>
    intro r hr kv hkv
    rcases removeOne_records_cases st2 id with hc | hc
    · exact ih r (hc ▸ hr) kv hkv
    · rw [hc] at hr
      exact ih r (List.mem_of_mem_filter hr) kv hkv
  | drop st2 hre2 ih =>
    intro r hr
    simp [resourceDrop] at hr

theorem pageOf_subset (hits : List Record) (opts : FindOptions) :
    pageOf hits opts ⊆ hits := by
  unfold pageOf
  cases opts.pageSize with
  | none => exact fun x hx => hx
  | some p => exact fun x hx => List.drop_subset _ _ (List.take_subset _ _ hx)

theorem find_mem_structure (s : Schema) (q : Fields) (opts : FindOptions) (st : St)
    (hha : s.afterFind = []) :
    ∀ r ∈ (resourceFind s q opts st).records,
      ∃ r0 ∈ st.records,
        (opts.skipComputation = true → r = r0) ∧
        (opts.skipComputation = false → r = resolveComputed s r0) := by
  intro r hr
  unfold resourceFind at hr
  rw [hha] at hr
  dsimp only [applyHooks, List.foldl_nil] at hr
  have hsub : ∀ x ∈ pageOf (st.records.filter (matchQuery (applyHooks s.beforeFind q))) opts,
      x ∈ st.records :=
    fun x hx => List.mem_of_mem_filter (pageOf_subset _ _ hx)
  cases hskip : opts.skipComputation with
  | true =>
    rw [hskip, if_pos rfl] at hr
    exact ⟨r, hsub r hr, fun _ => rfl, fun hf => absurd hf (by simp)⟩
  | false =>
    rw [hskip] at hr
    simp only [Bool.false_eq_true, if_false, List.mem_map] at hr
    rcases hr with ⟨r0, hr0, heq⟩
    exact ⟨r0, hsub r0 hr0, fun ht => absurd ht (by simp), fun _ => heq.symm⟩

/-- C9: computed-field values never appear in the persisted representation of a
reachable store; a `find` with `skipComputation` returns records with no
computed-field binding at all; and a `find` without it returns each stored
record with every computed field's function applied and its result attached
under the field's name. -/
theorem computed_fields_derived_not_stored (s : Schema) (st : St)
    (hwf : WellFormed s) (hre : Reachable s st) (hha : s.afterFind = []) :
    (∀ r ∈ st.records, ∀ kv ∈ r.fields, isComputedName s kv.1 = false) ∧
    (∀ (q : Fields) (p : Option Nat) (k : Nat),
      ∀ r ∈ (resourceFind s q (FindOptions.mk p k true) st).records,
        ∀ kv ∈ r.fields, isComputedName s kv.1 = false) ∧
    (∀ (q : Fields) (p : Option Nat) (k : Nat),
      ∀ r ∈ (resourceFind s q (FindOptions.mk p k false) st).records,
        ∃ r0 ∈ st.records, r = resolveComputed s r0 ∧
          ∀ f ∈ s.fields, f.computed = true → ∀ g, f.compute = some g →
            alookup f.name r.fields = some (g r0.fields)) := by
  refine ⟨stored_no_computed s st hre, ?_, ?_⟩
  · intro q p k r hr kv hkv
    rcases find_mem_structure s q (FindOptions.mk p k true) st hha r hr
      with ⟨r0, hr0, ht, _⟩
    rw [ht rfl] at hkv
    exact stored_no_computed s st hre r0 hr0 kv hkv
  · intro q p k r hr
    rcases find_mem_structure s q (FindOptions.mk p k false) st hha r hr
      with ⟨r0, hr0, _, hf⟩
    refine ⟨r0, hr0, hf rfl, ?_⟩
    intro f hfmem hcomp g hg
    rw [hf rfl]
    exact alookup_resolveComputed s r0 f g hwf hfmem hcomp hg

/-- Witness for C9 on the store reached by one `create`. -/
theorem computed_fields_derived_not_stored_witness :
    isComputedName personSchema "firstname" = false :=
  (computed_fields_derived_not_stored personSchema
      (resourceCreate personSchema [("firstname", Value.str "John")] St0).2
      (by decide)
      (Reachable.create [("firstname", Value.str "John")] St0 Reachable.init)
      rfl).1
    (Record.mk [("firstname", Value.str "John")] "id-0" []) (by decide)
    ("firstname", Value.str "John") (by decide)

end HumbleCMS
